import Mathlib

set_option maxRecDepth 8000

/-!
Verification of the OpenLEGO adapter layer (core/xml_component.py and
core/abstract_discipline.py) against its natural-language specification.

The XML path to parameter-name mapping lives in openlego/utils/xml_utils.py,
which is not part of the sources at hand; it is modelled from the spec
below.  Everything else is translated directly from the Python sources.
-/

/-! ## The XML path to parameter mapping (modelled from the spec)

Modelled from the spec: openlego/utils/xml_utils.py is missing; the spec
says input/output XML element paths are bijectively mapped to flat
parameter identifiers by joining path segments (and list indices) into a
single token, and recovered by inverting that mapping.  An XML path here
is the string /name1/name2[i]/name3...; the flat parameter identifier
joins the segment names and the decimal indices with a colon.
-/

/-- True when a character is an ordinary name character: not one of the
structural characters of XML paths and parameter names. -/
def isPlainChar (c : Char) : Bool :=
  c != '/' && c != '[' && c != ']' && c != ':'

/-- Character-level body of the path-to-parameter conversion: each path
separator and each opening index bracket becomes a colon, closing index
brackets are dropped, all other characters are kept. -/
def convChars : List Char → List Char
  | [] => []
  | c :: cs =>
    if c = '/' ∨ c = '[' then ':' :: convChars cs
    else if c = ']' then convChars cs
    else c :: convChars cs

/-- Drop the leading slash of an XML path. -/
def stripLead : List Char → List Char
  | [] => []
  | c :: cs => if c = '/' then cs else c :: cs

/-- Convert the characters of an XML path to the characters of the flat
parameter identifier. -/
def xpathToParamChars (s : List Char) : List Char :=
  convChars (stripLead s)

/-- Modelled from the spec: xpath_to_param of openlego/utils/xml_utils.py.
Joins the path segments and list indices of an XML path into a single
colon-separated token. -/
def xpath_to_param (s : String) : String :=
  String.mk (xpathToParamChars s.data)

/-- Split a character list on a separator character (the analogue of
Python str.split; always returns at least one piece). -/
def splitOnCh (sep : Char) : List Char → List (List Char)
  | [] => [[]]
  | c :: cs =>
    match splitOnCh sep cs with
    | [] => [[]]
    | t :: ts => if c = sep then [] :: t :: ts else (c :: t) :: ts

/-- True when a token is a non-empty run of decimal digits, i.e. a list
index in a parameter name. -/
def isNumTok (t : List Char) : Bool :=
  !t.isEmpty && t.all Char.isDigit

/-- Render one parameter-name token back into XML path syntax: a numeric
token becomes a bracketed index, any other token a slash-prefixed name. -/
def renderTok (t : List Char) : List Char :=
  if isNumTok t then '[' :: (t ++ [']']) else '/' :: t

/-- Render a list of parameter-name tokens back into an XML path. -/
def renderToks : List (List Char) → List Char
  | [] => []
  | t :: ts => renderTok t ++ renderToks ts

/-- Convert the characters of a flat parameter identifier back to the
characters of the XML path it came from. -/
def paramToXpathChars (p : List Char) : List Char :=
  renderToks (splitOnCh ':' p)

/-- Modelled from the spec: param_to_xpath of openlego/utils/xml_utils.py.
Inverts xpath_to_param by splitting the token on colons and restoring
slashes and bracketed list indices. -/
def param_to_xpath (p : String) : String :=
  String.mk (paramToXpathChars p.data)

/-- One segment of an XML path: an element name together with an optional
list index (kept as its decimal digit string). -/
structure XSeg where
  name : List Char
  idx : Option (List Char)
  deriving DecidableEq

/-- Render one segment in XML path syntax. -/
def renderSeg (s : XSeg) : List Char :=
  '/' :: (s.name ++ (match s.idx with
    | none => []
    | some d => '[' :: (d ++ [']'])))

/-- Render a whole XML path. -/
def renderXPath : List XSeg → List Char
  | [] => []
  | s :: ss => renderSeg s ++ renderXPath ss

/-- The parameter-name tokens contributed by one segment. -/
def tokSeg (s : XSeg) : List (List Char) :=
  s.name :: (match s.idx with
    | none => []
    | some d => [d])

/-- The parameter-name tokens of a whole XML path. -/
def paramToks : List XSeg → List (List Char)
  | [] => []
  | s :: ss => tokSeg s ++ paramToks ss

/-- Join tokens where every token is preceded by a colon. -/
def preJoin : List (List Char) → List Char
  | [] => []
  | t :: ts => ':' :: (t ++ preJoin ts)

/-- Join tokens separated by colons. -/
def joinColon : List (List Char) → List Char
  | [] => []
  | t :: ts => t ++ preJoin ts

/-- A well-formed segment as produced by a discipline template file: the
element name is non-empty, made of plain characters, and is not a pure
digit string; an index, when present, is a non-empty digit string. -/
def validSeg (s : XSeg) : Bool :=
  !s.name.isEmpty && s.name.all isPlainChar && !(s.name.all Char.isDigit) &&
    (match s.idx with
      | none => true
      | some d => !d.isEmpty && d.all Char.isDigit)

/-- A well-formed XML path: non-empty and all segments well-formed. -/
def validXPath (xs : List XSeg) : Bool :=
  !xs.isEmpty && xs.all validSeg

theorem isPlainChar_spec (c : Char) (h : isPlainChar c = true) :
    c ≠ '/' ∧ c ≠ '[' ∧ c ≠ ']' ∧ c ≠ ':' := by
  simp only [isPlainChar, Bool.and_eq_true, bne_iff_ne, ne_eq] at h
  exact ⟨h.1.1.1, h.1.1.2, h.1.2, h.2⟩

theorem isDigit_plain (c : Char) (h : c.isDigit = true) : isPlainChar c = true := by
  simp only [isPlainChar, Bool.and_eq_true, bne_iff_ne, ne_eq]
  refine ⟨⟨⟨?_, ?_⟩, ?_⟩, ?_⟩ <;> rintro rfl <;> exact absurd h (by decide)

theorem convChars_append (a b : List Char) :
    convChars (a ++ b) = convChars a ++ convChars b := by
  induction a with
  | nil => simp [convChars]
  | cons c cs ih =>
    simp only [List.cons_append, convChars]
    split
    · simp [ih]
    · split <;> simp [ih]

theorem convChars_keep (l : List Char)
    (h : ∀ c ∈ l, c ≠ '/' ∧ c ≠ '[' ∧ c ≠ ']') : convChars l = l := by
  induction l with
  | nil => rfl
  | cons c cs ih =>
    obtain ⟨h1, h2, h3⟩ := h c (List.mem_cons_self c cs)
    rw [convChars, if_neg (by simp [h1, h2]), if_neg h3,
      ih (fun x hx => h x (List.mem_cons_of_mem c hx))]

theorem preJoin_append (a b : List (List Char)) :
    preJoin (a ++ b) = preJoin a ++ preJoin b := by
  induction a with
  | nil => simp [preJoin]
  | cons t ts ih => simp [preJoin, ih]

theorem convChars_name (s : XSeg) (h : validSeg s = true) :
    convChars s.name = s.name := by
  refine convChars_keep s.name (fun c hc => ?_)
  simp only [validSeg, Bool.and_eq_true, List.all_eq_true] at h
  obtain ⟨hp, -, -⟩ := isPlainChar_spec c (h.1.1.2 c hc)
  exact ⟨hp, (isPlainChar_spec c (h.1.1.2 c hc)).2.1,
    (isPlainChar_spec c (h.1.1.2 c hc)).2.2.1⟩

theorem convChars_digits (d : List Char) (h : d.all Char.isDigit = true) :
    convChars d = d := by
  refine convChars_keep d (fun c hc => ?_)
  simp only [List.all_eq_true] at h
  obtain ⟨hp, hq, hr, -⟩ := isPlainChar_spec c (isDigit_plain c (h c hc))
  exact ⟨hp, hq, hr⟩

theorem convChars_renderSeg (s : XSeg) (h : validSeg s = true) :
    convChars (renderSeg s) = preJoin (tokSeg s) := by
  cases hidx : s.idx with
  | none =>
    simp only [renderSeg, hidx, List.append_nil, tokSeg, preJoin]
    rw [convChars, if_pos (Or.inl rfl), convChars_name s h]
    try simp
  | some d =>
    have hd : d.all Char.isDigit = true := by
      simp only [validSeg, hidx, Bool.and_eq_true] at h
      exact h.2.2
    simp only [renderSeg, hidx, tokSeg, preJoin]
    rw [convChars, if_pos (Or.inl rfl), convChars_append, convChars_name s h]
    rw [convChars, if_pos (Or.inr rfl), convChars_append, convChars_digits d hd]
    simp [convChars]

theorem convChars_renderXPath (xs : List XSeg)
    (h : ∀ s ∈ xs, validSeg s = true) :
    convChars (renderXPath xs) = preJoin (paramToks xs) := by
  induction xs with
  | nil => rfl
  | cons s ss ih =>
    simp only [renderXPath, paramToks]
    rw [convChars_append, preJoin_append,
      convChars_renderSeg s (h s (List.mem_cons_self s ss)),
      ih (fun x hx => h x (List.mem_cons_of_mem s hx))]

theorem stripLead_slash (l : List Char) : stripLead ('/' :: l) = l := by
  simp [stripLead]

theorem xtpChars_render (s : XSeg) (ss : List XSeg)
    (h : ∀ x ∈ s :: ss, validSeg x = true) :
    xpathToParamChars (renderXPath (s :: ss)) = joinColon (paramToks (s :: ss)) := by
  have hs : validSeg s = true := h s (List.mem_cons_self s ss)
  have hss : ∀ x ∈ ss, validSeg x = true :=
    fun x hx => h x (List.mem_cons_of_mem s hx)
  have hrest : convChars (renderXPath ss) = preJoin (paramToks ss) :=
    convChars_renderXPath ss hss
  cases hidx : s.idx with
  | none =>
    simp only [renderXPath, renderSeg, hidx, List.append_nil, xpathToParamChars,
      List.cons_append, paramToks, tokSeg, joinColon]
    rw [stripLead_slash, convChars_append, convChars_name s hs, hrest]
    simp
  | some d =>
    have hd : d.all Char.isDigit = true := by
      simp only [validSeg, hidx, Bool.and_eq_true] at hs
      exact hs.2.2
    simp only [renderXPath, renderSeg, hidx, xpathToParamChars,
      List.cons_append, paramToks, tokSeg, joinColon]
    rw [stripLead_slash, List.append_assoc, convChars_append,
      convChars_name s hs, convChars_append]
    rw [convChars, if_pos (Or.inr rfl), convChars_append, convChars_digits d hd]
    simp [convChars, preJoin, hrest]

theorem splitOnCh_append_front (sep : Char) (t cs : List Char)
    (h : ∀ c ∈ t, c ≠ sep) (u : List Char) (us : List (List Char))
    (hs : splitOnCh sep cs = u :: us) :
    splitOnCh sep (t ++ cs) = (t ++ u) :: us := by
  induction t with
  | nil => simpa using hs
  | cons c t' ih =>
    have hc : c ≠ sep := h c (List.mem_cons_self c t')
    have ih2 := ih (fun x hx => h x (List.mem_cons_of_mem c hx))
    rw [List.cons_append, splitOnCh, ih2]
    simp [hc]

theorem splitOnCh_join (ts : List (List Char))
    (h : ∀ t ∈ ts, ∀ c ∈ t, c ≠ ':') (hne : ts ≠ []) :
    splitOnCh ':' (joinColon ts) = ts := by
  induction ts with
  | nil => exact absurd rfl hne
  | cons t ts ih =>
    cases ts with
    | nil =>
      have h1 : joinColon [t] = t ++ [] := by simp [joinColon, preJoin]
      have h2 := splitOnCh_append_front ':' t []
        (h t (List.mem_cons_self t [])) [] [] rfl
      rw [h1, h2]
      simp
    | cons u ts2 =>
      have hrec : splitOnCh ':' (joinColon (u :: ts2)) = u :: ts2 :=
        ih (fun x hx => h x (List.mem_cons_of_mem t hx)) (by simp)
      have hcolon : splitOnCh ':' (':' :: joinColon (u :: ts2)) =
          [] :: u :: ts2 := by
        rw [splitOnCh, hrec]
        simp
      have hjoin : joinColon (t :: u :: ts2) =
          t ++ (':' :: joinColon (u :: ts2)) := by
        simp [joinColon, preJoin]
      rw [hjoin, splitOnCh_append_front ':' t _
        (h t (List.mem_cons_self t _)) _ _ hcolon]
      simp

theorem renderToks_append (a b : List (List Char)) :
    renderToks (a ++ b) = renderToks a ++ renderToks b := by
  induction a with
  | nil => rfl
  | cons t ts ih => simp [renderToks, ih]

theorem renderToks_paramToks (xs : List XSeg)
    (h : ∀ s ∈ xs, validSeg s = true) :
    renderToks (paramToks xs) = renderXPath xs := by
  induction xs with
  | nil => rfl
  | cons s ss ih =>
    have hs : validSeg s = true := h s (List.mem_cons_self s ss)
    have hnum : isNumTok s.name = false := by
      simp only [validSeg, Bool.and_eq_true] at hs
      have hnd := hs.1.2
      simp only [Bool.not_eq_true'] at hnd
      simp [isNumTok, hnd]
    simp only [paramToks, renderXPath]
    rw [renderToks_append, ih (fun x hx => h x (List.mem_cons_of_mem s hx))]
    cases hidx : s.idx with
    | none =>
      simp [tokSeg, hidx, renderToks, renderTok, hnum, renderSeg]
    | some d =>
      have hd : isNumTok d = true := by
        simp only [validSeg, hidx, Bool.and_eq_true] at hs
        simp [isNumTok, hs.2.1, hs.2.2]
      simp [tokSeg, hidx, renderToks, renderTok, hnum, hd, renderSeg]

theorem paramToks_noColon (xs : List XSeg)
    (h : ∀ s ∈ xs, validSeg s = true) :
    ∀ t ∈ paramToks xs, ∀ c ∈ t, c ≠ ':' := by
  induction xs with
  | nil => intro t ht; exact absurd ht (by simp [paramToks])
  | cons s ss ih =>
    intro t ht c hc
    have hs : validSeg s = true := h s (List.mem_cons_self s ss)
    simp only [paramToks, List.mem_append] at ht
    cases ht with
    | inl hts =>
      simp only [validSeg, Bool.and_eq_true, List.all_eq_true] at hs
      cases hidx : s.idx with
      | none =>
        rw [tokSeg, hidx] at hts
        simp only [List.mem_cons, List.not_mem_nil, or_false] at hts
        subst hts
        exact (isPlainChar_spec c (hs.1.1.2 c hc)).2.2.2
      | some d =>
        rw [tokSeg, hidx] at hts
        simp only [List.mem_cons, List.not_mem_nil, or_false] at hts
        cases hts with
        | inl hn =>
          subst hn
          exact (isPlainChar_spec c (hs.1.1.2 c hc)).2.2.2
        | inr hd =>
          have hdig : d.all Char.isDigit = true := by
            have hsi := hs.2
            rw [hidx] at hsi
            simp only [Bool.and_eq_true] at hsi
            exact hsi.2
          simp only [List.all_eq_true] at hdig
          rw [hd] at hc
          exact (isPlainChar_spec c (isDigit_plain c (hdig c hc))).2.2.2
    | inr hr =>
      exact ih (fun x hx => h x (List.mem_cons_of_mem s hx)) t hr c hc

/-- Claim C1: for every well-formed XML path produced by a discipline
template file, converting the path to a flat parameter name and back
yields the original path (round-trip fidelity of the path mapping). -/
theorem c1_roundtrip (xs : List XSeg) (h : validXPath xs = true) :
    param_to_xpath (xpath_to_param (String.mk (renderXPath xs))) =
      String.mk (renderXPath xs) := by
  obtain ⟨s, ss, rfl⟩ : ∃ s ss, xs = s :: ss := by
    cases xs with
    | nil => exact absurd h (by simp [validXPath])
    | cons s ss => exact ⟨s, ss, rfl⟩
  have hall : ∀ x ∈ s :: ss, validSeg x = true := by
    simp only [validXPath, Bool.and_eq_true, List.all_eq_true] at h
    exact h.2
  show String.mk (paramToXpathChars (xpathToParamChars (renderXPath (s :: ss)))) =
    String.mk (renderXPath (s :: ss))
  rw [xtpChars_render s ss hall]
  rw [paramToXpathChars, splitOnCh_join _ (paramToks_noColon _ hall)
    (by simp [paramToks, tokSeg]), renderToks_paramToks _ hall]

/-- Witness for c1_roundtrip at the concrete path /a/b[2]. -/
theorem c1_roundtrip_w :
    validXPath [⟨['a'], none⟩, ⟨['b'], some ['2']⟩] = true ∧
    param_to_xpath (xpath_to_param
        (String.mk (renderXPath [⟨['a'], none⟩, ⟨['b'], some ['2']⟩]))) =
      String.mk (renderXPath [⟨['a'], none⟩, ⟨['b'], some ['2']⟩]) :=
  ⟨by decide, c1_roundtrip _ (by decide)⟩

/-! ## Values taken from XML template files

A value parsed from a template XML file (xml_to_dict of the missing
xml_utils.py yields floats, numpy float arrays, or other data such as
strings).  Floats are modelled as rationals; none stands for NaN.
-/

/-- A value parsed from a template XML file. -/
inductive XVal where
  | flt (x : Option ℚ)
  | arr (xs : List (Option ℚ))
  | strv (s : String)
  deriving DecidableEq

/-- True when the value is continuous in the sense of XMLComponent.setup:
a float that is not NaN, or a numpy array with no NaN entry (lines
180-182 and 188-190 of xml_component.py; any of an empty array is
false, so an empty array counts as continuous). -/
def isCont : XVal → Bool
  | XVal.flt (some _) => true
  | XVal.flt none => false
  | XVal.arr xs => !(xs.any (fun x => x.isNone))
  | XVal.strv _ => false

/-- Mean of a numpy array as used by setup: NaN (none) for an empty
array or an array holding a NaN, the exact mean otherwise. -/
def meanQ (xs : List (Option ℚ)) : Option ℚ :=
  if xs.isEmpty then none
  else if xs.any (fun x => x.isNone) then none
  else some ((xs.filterMap id).sum / xs.length)

/-- The raw reference value of setup before the zero guard: the template
value itself, or the mean for an array. -/
def refRaw : XVal → Option ℚ
  | XVal.flt x => x
  | XVal.arr xs => meanQ xs
  | XVal.strv _ => none

/-- The scaling reference computed by setup for a continuous output
(lines 193-199 of xml_component.py): the template value, the mean for an
array, with an exact zero replaced by one. -/
def refOf (v : XVal) : Option ℚ :=
  if refRaw v = some 0 then some 1 else refRaw v

/-! ## The XMLComponent state and its setup -/

/-- State of an XMLComponent: the dictionaries filled by
set_inputs_from_xml, set_outputs_from_xml and declare_partials_from_xml
(parameter names to template values; partials keep raw XML paths of
outputs mapped to the XML paths of the inputs they are sensitive to),
plus the configuration attributes set in the constructor. -/
structure XMLComponent where
  inputs_from_xml : List (String × XVal)
  outputs_from_xml : List (String × XVal)
  partials_from_xml : List (String × List (String × ℚ))
  data_folder : String
  keep_files : Bool
  base_file : Option String
  compname : String
  deriving DecidableEq

/-- XMLComponent.set_inputs_from_xml: template entries keyed by XML
path are stored under the parameter name given by xpath_to_param. -/
def set_inputs_from_xml (template : List (String × XVal)) : List (String × XVal) :=
  template.map (fun e => (xpath_to_param e.1, e.2))

/-- XMLComponent.set_outputs_from_xml, the same conversion for outputs. -/
def set_outputs_from_xml (template : List (String × XVal)) : List (String × XVal) :=
  template.map (fun e => (xpath_to_param e.1, e.2))

/-- One call made by XMLComponent.setup to the host framework. -/
inductive SetupAction where
  | addDiscreteInput (pname : String) (v : XVal)
  | addInput (pname : String) (v : XVal)
  | addDiscreteOutput (pname : String) (v : XVal)
  | addOutput (pname : String) (v : XVal) (ref : Option ℚ)
  | declarePartialsOf (of : String) (wrt : List String)
  | declarePartialsFD
  deriving DecidableEq

/-- XMLComponent.setup (lines 178-211 of xml_component.py): register the
XML inputs and outputs, then declare either the partial-derivative pairs
of the partials template converted through xpath_to_param, or, when no
partials were declared, finite differencing for everything. -/
def setup (c : XMLComponent) : List SetupAction :=
  c.inputs_from_xml.map (fun p =>
    if isCont p.2 then SetupAction.addInput p.1 p.2
    else SetupAction.addDiscreteInput p.1 p.2)
  ++ c.outputs_from_xml.map (fun p =>
    if isCont p.2 then SetupAction.addOutput p.1 p.2 (refOf p.2)
    else SetupAction.addDiscreteOutput p.1 p.2)
  ++ (if c.partials_from_xml.isEmpty then [SetupAction.declarePartialsFD]
      else c.partials_from_xml.map (fun e =>
        SetupAction.declarePartialsOf (xpath_to_param e.1)
          (e.2.map (fun w => xpath_to_param w.1))))

/-- The declare_partials calls among a list of setup actions. -/
def declareActs (l : List SetupAction) : List SetupAction :=
  l.filter (fun a =>
    match a with
    | SetupAction.declarePartialsOf _ _ => true
    | SetupAction.declarePartialsFD => true
    | _ => false)

/-! ## The compute and compute_partials traces -/

/-- Python errors that the embedded code can raise. -/
inductive PyErr where
  | valueError (msg : String)
  | typeError
  | indexError
  | osError
  deriving DecidableEq

/-- One observable step taken by compute or compute_partials. -/
inductive Ev where
  | writeInputFile (file : String)
  | mergeFiles (target : String) (src : String)
  | callExecute (inF : String) (outF : String)
  | callLinearize (inF : String) (pF : String)
  | tryRemove (file : String) (ok : Bool)
  | readOutputsFile (file : String)
  | readPartialsFile (file : String)
  deriving DecidableEq

/-- os.path.join of a folder and a file name. -/
def pathJoin (d f : String) : String :=
  if d = "" then f else d ++ "/" ++ f

/-- Input file path from XMLComponent.generate_file_names. -/
def inFileName (c : XMLComponent) (salt : String) : String :=
  pathJoin c.data_folder (c.compname ++ "_in_" ++ salt ++ ".xml")

/-- Output file path from XMLComponent.generate_file_names. -/
def outFileName (c : XMLComponent) (salt : String) : String :=
  pathJoin c.data_folder (c.compname ++ "_out_" ++ salt ++ ".xml")

/-- Partials file path from XMLComponent.generate_file_names. -/
def pFileName (c : XMLComponent) (salt : String) : String :=
  pathJoin c.data_folder (c.compname ++ "_partials_" ++ salt ++ ".xml")

/-- Root element name used by XMLComponent.write_input_file, line 276:
segment one of the XML path of the first input parameter. -/
def rootNameOf (p : String) : String :=
  String.mk (((splitOnCh '/' (param_to_xpath p).data).get? 1).getD [])

/-- The membership tests write_input_file performs for each parameter
(lines 280-284): a parameter in the inputs vector is written; otherwise
Python evaluates param in discrete_inputs, which raises TypeError when
discrete_inputs is None. -/
def checkParamsW (params : List String) (inputs : List String)
    (discrete : Option (List String)) : Except PyErr Unit :=
  match params with
  | [] => Except.ok ()
  | p :: ps =>
    if p ∈ inputs then checkParamsW ps inputs discrete
    else
      match discrete with
      | none => Except.error PyErr.typeError
      | some _ => checkParamsW ps inputs discrete

/-- XMLComponent.write_input_file (lines 260-287): takes the first entry
of inputs_from_xml to build the document root, raising IndexError when
there is none, then visits every XML input parameter.  Returns the root
element name. -/
def write_input_file (c : XMLComponent) (inputs : List String)
    (discrete_inputs : Option (List String)) : Except PyErr String :=
  match c.inputs_from_xml with
  | [] => Except.error PyErr.indexError
  | fst :: _ =>
    (checkParamsW (c.inputs_from_xml.map Prod.fst) inputs discrete_inputs).map
      (fun _ => rootNameOf fst.1)

/-- Events contributed by the input-writing block of compute (lines
352-355): write the input file, then merge it into the base file when
one is configured. -/
def mergePart (c : XMLComponent) (inF : String) : List Ev :=
  match c.base_file with
  | some b => [Ev.mergeFiles b inF]
  | none => []

/-- Events of the execute block of compute (lines 357-362): with a base
file, execute reads the base file and the result is merged back into it;
otherwise execute reads the temporary input file. -/
def execPart (c : XMLComponent) (inF outF : String) : List Ev :=
  match c.base_file with
  | some b => [Ev.callExecute b outF, Ev.mergeFiles b outF]
  | none => [Ev.callExecute inF outF]

/-- A best-effort deletion attempt (performed unless keep_files). -/
def removePart (c : XMLComponent) (f : String) (removeOk : String → Bool) : List Ev :=
  if c.keep_files then [] else [Ev.tryRemove f (removeOk f)]

/-- Events of the output-reading block of compute (lines 371-379). -/
def readPart (c : XMLComponent) (outF : String) (removeOk : String → Bool) : List Ev :=
  if c.outputs_from_xml.isEmpty then []
  else Ev.readOutputsFile outF :: removePart c outF removeOk

/-- The write-and-merge prefix of compute (lines 352-355): nothing when
there are no XML inputs, otherwise the write_input_file call (which may
raise) followed by the optional merge into the base file. -/
def computePre (c : XMLComponent) (inputs : List String)
    (discrete : Option (List String)) (inF : String) : Except PyErr (List Ev) :=
  if c.inputs_from_xml.isEmpty then Except.ok []
  else (write_input_file c inputs discrete).map
    (fun _ => Ev.writeInputFile inF :: mergePart c inF)

/-- XMLComponent.compute (lines 337-379) as a trace of observable steps:
write the input file (when there are XML inputs), call execute, attempt
to delete the input file, read the output file (when there are XML
outputs) and attempt to delete it.  removeOk tells whether each
os.remove succeeds; a failed removal is caught and ignored. -/
def compute (c : XMLComponent) (inputs : List String)
    (discrete : Option (List String)) (salt : String)
    (removeOk : String → Bool) : Except PyErr (List Ev) :=
  (computePre c inputs discrete (inFileName c salt)).map
    (fun evs => evs
      ++ execPart c (inFileName c salt) (outFileName c salt)
      ++ removePart c (inFileName c salt) removeOk
      ++ readPart c (outFileName c salt) removeOk)

/-- XMLComponent.compute_partials (lines 381-411) as a trace: nothing at
all when no partials are declared; otherwise write the input file (with
discrete_inputs left at None), call linearize, attempt to delete the
input file, read the partials file and attempt to delete it. -/
def compute_partials (c : XMLComponent) (inputs : List String) (salt : String)
    (removeOk : String → Bool) : Except PyErr (List Ev) :=
  if c.partials_from_xml.isEmpty then Except.ok []
  else (write_input_file c inputs none).map
    (fun _ =>
      [Ev.writeInputFile (inFileName c salt),
       Ev.callLinearize (inFileName c salt) (pFileName c salt)]
      ++ removePart c (inFileName c salt) removeOk
      ++ [Ev.readPartialsFile (pFileName c salt)]
      ++ removePart c (pFileName c salt) removeOk)

/-! ## Reading the partials file -/

/-- The partials Jacobian handed to compute_partials: an association list
over declared (of, wrt) parameter pairs. -/
def PairMap : Type := List ((String × String) × ℚ)

instance : DecidableEq PairMap := by
  unfold PairMap
  infer_instance

/-- Store a value at a pair when the pair is declared; an undeclared pair
leaves the map unchanged (the membership guard on line 331 of
xml_component.py). -/
def pmUpdate (m : PairMap) (k : String × String) (v : ℚ) : PairMap :=
  m.map (fun e => if e.1 = k then (k, v) else e)

/-- Look a pair up in the Jacobian. -/
def pmGet (m : PairMap) (k : String × String) : Option ℚ :=
  (m.find? (fun e => e.1 = k)).map Prod.snd

/-- One inner iteration of XMLComponent.read_partials_file (lines
327-335).  The state carries the current value of the Python variable
named of, which the loop body overwrites with its converted form, the
Jacobian, and the list of arguments passed to xpath_to_param so far. -/
def readPartialsStep (st : String × PairMap × List String)
    (wv : String × ℚ) : String × PairMap × List String :=
  (xpath_to_param st.1,
   pmUpdate st.2.1 (xpath_to_param st.1, xpath_to_param wv.1) wv.2,
   st.2.2 ++ [st.1, wv.1])

/-- One outer iteration of XMLComponent.read_partials_file: run the
inner loop starting from the raw of path of the entry, keeping the
Jacobian and the conversion trace. -/
def readPartialsOuter (acc : PairMap × List String)
    (e : String × List (String × ℚ)) : PairMap × List String :=
  ((e.2.foldl readPartialsStep (e.1, acc.1, acc.2)).2.1,
   (e.2.foldl readPartialsStep (e.1, acc.1, acc.2)).2.2)

/-- XMLComponent.read_partials_file (lines 313-335): fold the inner loop
over each of-entry of the partials file.  Returns the updated Jacobian
and the trace of arguments passed to xpath_to_param. -/
def read_partials_file (entries : List (String × List (String × ℚ)))
    (vec : PairMap) : PairMap × List String :=
  entries.foldl readPartialsOuter (vec, [])

/-- Modelled from the claim: one entry of the partials file as the spec
describes its processing, converting the of path and each wrt path
exactly once and storing each value at the converted pair when it is
declared. -/
def claimedOuter (acc : PairMap × List String)
    (e : String × List (String × ℚ)) : PairMap × List String :=
  (e.2.foldl
    (fun m wv => pmUpdate m (xpath_to_param e.1, xpath_to_param wv.1) wv.2)
    acc.1,
   acc.2 ++ e.1 :: e.2.map Prod.fst)

/-- Modelled from the claim: the reading of the partials file as the
spec describes it. -/
def readPartialsClaimed (entries : List (String × List (String × ℚ)))
    (vec : PairMap) : PairMap × List String :=
  entries.foldl claimedOuter (vec, [])

/-! ## The AbstractDiscipline interface -/

/-- An AbstractDiscipline: its class name, the directory of its module,
and the template contents produced by its three generate methods. -/
structure Discipline where
  dclass : String
  dpath : String
  generate_input_xml : String
  generate_output_xml : String
  generate_partials_xml : String
  deriving DecidableEq

/-- AbstractDiscipline.in_file: <dir>/<Name>-input.xml. -/
def in_file (d : Discipline) : String :=
  pathJoin d.dpath (d.dclass ++ "-input.xml")

/-- AbstractDiscipline.out_file: <dir>/<Name>-output.xml. -/
def out_file (d : Discipline) : String :=
  pathJoin d.dpath (d.dclass ++ "-output.xml")

/-- AbstractDiscipline.partials_file: <dir>/<Name>-partials.xml. -/
def partials_file (d : Discipline) : String :=
  pathJoin d.dpath (d.dclass ++ "-partials.xml")

/-- AbstractDiscipline.deploy (lines 116-125 of abstract_discipline.py):
the file writes it performs, in order. -/
def deploy (d : Discipline) : List (String × String) :=
  [(in_file d, d.generate_input_xml),
   (out_file d, d.generate_output_xml),
   (partials_file d, d.generate_partials_xml)]

/-- Apply a list of file writes to a file system (path to contents). -/
def applyWrites (ws : List (String × String)) (fs : String → Option String) :
    String → Option String :=
  ws.foldl (fun acc w => fun p => if p = w.1 then some w.2 else acc p) fs

/-! ## xml_params_as_indep_vars -/

/-- One call made on the target Group by xml_params_as_indep_vars. -/
inductive GroupAct where
  | add (al : String) (value : ℚ) (promotes : List String)
  | connect (src : String) (tgt : String)
  deriving DecidableEq

/-- The alias the dead branch on line 440 of xml_component.py would
derive when aliases is omitted: INDEP_ followed by the last path segment
of the parameter, with any index bracket stripped. -/
def lastSegAlias (p : String) : String :=
  String.mk ("INDEP_".data ++
    (splitOnCh '[' ((splitOnCh '/' (param_to_xpath p).data).getLast?.getD [])).headI)

/-- The loop body of xml_params_as_indep_vars (lines 438-445) with
aliases supplied: look the alias up by position (IndexError when the
aliases list is too short), then add and connect. -/
def buildIndepActs : List String → List ℚ → List String →
    Except PyErr (List GroupAct)
  | [], _, _ => Except.ok []
  | _ :: _, [], _ => Except.error PyErr.indexError
  | _ :: _, _ :: _, [] => Except.error PyErr.indexError
  | p :: ps, v :: vs, a :: als =>
    (buildIndepActs ps vs als).map
      (fun rest => GroupAct.add a v [a] :: GroupAct.connect a p :: rest)

/-- XMLComponent.xml_params_as_indep_vars (lines 413-445).  The guard on
line 431 reads: len(params) != len(values) or (aliases is None and
len(params) != len(aliases)).  When the first disjunct is false and
aliases is None, Python evaluates len(aliases) on None and raises
TypeError, so the aliases-omitted path never proceeds. -/
def xml_params_as_indep_vars (c : XMLComponent) (params : List String)
    (values : List ℚ) (aliases : Option (List String)) :
    Except PyErr (List GroupAct) :=
  if params.length ≠ values.length then
    Except.error (PyErr.valueError
      "number of params, values and optionally aliases needs to be the same")
  else
    match aliases with
    | none => Except.error PyErr.typeError
    | some als =>
      match params.find? (fun p => !(c.inputs_from_xml.map Prod.fst).contains p) with
      | some p => Except.error (PyErr.valueError
          ("at least one param given is not a param of this XMLComponent " ++ p))
      | none => buildIndepActs params values als

/-! ## Helper lemmas -/

theorem exceptMap_ok {ε α β : Type} (f : α → β) (a : α) :
    (Except.ok a : Except ε α).map f = Except.ok (f a) := rfl

theorem exceptMap_err {ε α β : Type} (f : α → β) (e : ε) :
    (Except.error e : Except ε α).map f = Except.error e := rfl

theorem isEmpty_false_of_ne {α : Type} (l : List α) (h : l ≠ []) :
    l.isEmpty = false := by
  cases l with
  | nil => exact absurd rfl h
  | cons a l => rfl

theorem declareActs_append (a b : List SetupAction) :
    declareActs (a ++ b) = declareActs a ++ declareActs b := by
  simp [declareActs, List.filter_append]

theorem declareActs_inputs (l : List (String × XVal)) :
    declareActs (l.map (fun p =>
      if isCont p.2 then SetupAction.addInput p.1 p.2
      else SetupAction.addDiscreteInput p.1 p.2)) = [] := by
  induction l with
  | nil => rfl
  | cons p ps ih =>
    simp only [List.map_cons, declareActs, List.filter_cons] at ih ⊢
    cases h : isCont p.2 <;> simp [h, ih]

theorem declareActs_outputs (l : List (String × XVal)) :
    declareActs (l.map (fun p =>
      if isCont p.2 then SetupAction.addOutput p.1 p.2 (refOf p.2)
      else SetupAction.addDiscreteOutput p.1 p.2)) = [] := by
  induction l with
  | nil => rfl
  | cons p ps ih =>
    simp only [List.map_cons, declareActs, List.filter_cons] at ih ⊢
    cases h : isCont p.2 <;> simp [h, ih]

theorem declareActs_decl (l : List (String × List (String × ℚ))) :
    declareActs (l.map (fun e =>
      SetupAction.declarePartialsOf (xpath_to_param e.1)
        (e.2.map (fun w => xpath_to_param w.1)))) =
    l.map (fun e =>
      SetupAction.declarePartialsOf (xpath_to_param e.1)
        (e.2.map (fun w => xpath_to_param w.1))) := by
  induction l with
  | nil => rfl
  | cons p ps ih =>
    simp only [List.map_cons, declareActs, List.filter_cons] at ih ⊢
    simp [ih]

/-- Claim C3: when no partials metadata is declared, setup instructs the
framework to finite-difference everything; otherwise it declares exactly
the (of, wrt) pairs of the partials XML converted through the path
mapping, and no others. -/
theorem c3_declare_exact (c : XMLComponent) :
    declareActs (setup c) =
      if c.partials_from_xml.isEmpty then [SetupAction.declarePartialsFD]
      else c.partials_from_xml.map (fun e =>
        SetupAction.declarePartialsOf (xpath_to_param e.1)
          (e.2.map (fun w => xpath_to_param w.1))) := by
  unfold setup
  rw [declareActs_append, declareActs_append, declareActs_inputs,
    declareActs_outputs]
  cases h : c.partials_from_xml.isEmpty with
  | true => simp [h, declareActs]
  | false => simp [h, declareActs_decl]

/-- The reference value of setup is never exactly zero thanks to the
zero guard on line 198. -/
theorem refOf_ne_zero (v : XVal) : refOf v ≠ some 0 := by
  unfold refOf
  split
  · simp
  · next h0 => exact h0

/-- Claim C9: every continuous output registered by setup gets as its
scaling reference the template value (mean for arrays) with an exact
zero replaced by one, hence a reference that is never zero. -/
theorem c9_nonzero_ref (c : XMLComponent) (n : String) (v : XVal) (r : Option ℚ)
    (h : SetupAction.addOutput n v r ∈ setup c) :
    isCont v = true ∧ r = refOf v ∧ r ≠ some 0 := by
  unfold setup at h
  simp only [List.mem_append, List.mem_map] at h
  rcases h with (h | h) | h
  · obtain ⟨p, hp, he⟩ := h
    split at he <;> simp at he
  · obtain ⟨p, hp, he⟩ := h
    split at he
    · next hcont =>
      obtain ⟨h1, h2, h3⟩ := SetupAction.addOutput.inj he
      exact ⟨h2 ▸ hcont, by rw [← h3, h2], by rw [← h3]; exact refOf_ne_zero _⟩
    · simp at he
  · split at h <;> simp at h

/-- Witness for c9_nonzero_ref: a concrete component with a continuous
output whose template value is exactly zero. -/
theorem c9_nonzero_ref_w :
    isCont (XVal.flt (some 0)) = true ∧
    (some 1 : Option ℚ) = refOf (XVal.flt (some 0)) ∧
    (some 1 : Option ℚ) ≠ some 0 :=
  c9_nonzero_ref
    ⟨[], [("a:y", XVal.flt (some 0))], [], "", false, none, "D"⟩
    "a:y" (XVal.flt (some 0)) (some 1) (by decide)

/-! ## Claim C8: the write_input_file precondition -/

theorem checkParamsW_err (ps : List String) (i : List String)
    (dsc : Option (List String)) (e : PyErr)
    (h : checkParamsW ps i dsc = Except.error e) : e = PyErr.typeError := by
  induction ps with
  | nil => exact absurd h (by simp [checkParamsW])
  | cons p ps ih =>
    simp only [checkParamsW] at h
    split at h
    · exact ih h
    · cases dsc with
      | none =>
        simp only at h
        exact (Except.error.inj h).symm
      | some l =>
        simp only at h
        exact ih h

theorem write_input_file_err (c : XMLComponent) (i : List String)
    (d : Option (List String)) (e : PyErr)
    (h : write_input_file c i d = Except.error e) :
    (c.inputs_from_xml = [] ∧ e = PyErr.indexError) ∨ e = PyErr.typeError := by
  unfold write_input_file at h
  cases hl : c.inputs_from_xml with
  | nil =>
    rw [hl] at h
    exact Or.inl ⟨rfl, (Except.error.inj h).symm⟩
  | cons fst rest =>
    rw [hl] at h
    cases hc : checkParamsW ((fst :: rest).map Prod.fst) i d with
    | ok u =>
      simp only [hc, exceptMap_ok] at h
      exact absurd h (by simp)
    | error e2 =>
      simp only [hc, exceptMap_err, Except.error.injEq] at h
      subst h
      exact Or.inr (checkParamsW_err _ _ _ _ hc)

theorem computePre_err (c : XMLComponent) (i : List String)
    (d : Option (List String)) (f : String) (e : PyErr)
    (h : computePre c i d f = Except.error e) : e = PyErr.typeError := by
  unfold computePre at h
  split at h
  · exact absurd h (by simp)
  · next hne =>
    cases hw : write_input_file c i d with
    | ok r => rw [hw] at h; exact absurd h (by simp [exceptMap_ok])
    | error e2 =>
      rw [hw, exceptMap_err] at h
      have he := (Except.error.inj h).symm
      subst he
      rcases write_input_file_err c i d e hw with ⟨hnil, _⟩ | ht
      · rw [hnil] at hne
        exact absurd rfl hne
      · exact ht

/-- Claim C8: write_input_file reads the first entry of inputs_from_xml
to build the document root and fails with IndexError exactly when there
is none; compute guards the call by the non-emptiness of inputs_from_xml
and therefore never raises IndexError, while compute_partials calls it
whenever partials_from_xml is non-empty and hits the IndexError when
inputs_from_xml is empty. -/
theorem c8_write_guard :
    (∀ (c : XMLComponent) (i : List String) (d : Option (List String)),
      write_input_file c i d = Except.error PyErr.indexError ↔
        c.inputs_from_xml = [])
    ∧ (∀ (c : XMLComponent) (i : List String) (d : Option (List String))
        (salt : String) (rm : String → Bool),
        compute c i d salt rm ≠ Except.error PyErr.indexError)
    ∧ (∀ (c : XMLComponent) (i : List String) (salt : String)
        (rm : String → Bool),
        c.partials_from_xml ≠ [] → c.inputs_from_xml = [] →
        compute_partials c i salt rm = Except.error PyErr.indexError) := by
  refine ⟨fun c i d => ⟨fun h => ?_, fun h => ?_⟩, fun c i d salt rm h => ?_,
    fun c i salt rm hp hi => ?_⟩
  · rcases write_input_file_err c i d _ h with ⟨hnil, _⟩ | ht
    · exact hnil
    · exact absurd ht (by simp)
  · unfold write_input_file
    rw [h]
  · unfold compute at h
    cases hpre : computePre c i d (inFileName c salt) with
    | ok evs => rw [hpre] at h; exact absurd h (by simp [exceptMap_ok])
    | error e =>
      rw [hpre, exceptMap_err] at h
      have he := (Except.error.inj h)
      have := computePre_err c i d (inFileName c salt) e hpre
      rw [this] at he
      exact absurd he (by simp)
  · unfold compute_partials
    rw [isEmpty_false_of_ne _ hp]
    unfold write_input_file
    rw [hi]
    rfl

/-- Witness for c8_write_guard on concrete components. -/
theorem c8_write_guard_w :
    write_input_file
        ⟨[], [], [], "", false, none, "D"⟩ [] none =
      Except.error PyErr.indexError
    ∧ compute ⟨[], [], [], "", false, none, "D"⟩ [] none "s" (fun _ => true) ≠
      Except.error PyErr.indexError
    ∧ compute_partials
        ⟨[], [], [("/a/b", [("/a/x", 1)])], "", false, none, "D"⟩ [] "s"
        (fun _ => true) =
      Except.error PyErr.indexError :=
  ⟨(c8_write_guard.1 _ [] none).mpr rfl,
   c8_write_guard.2.1 _ [] none "s" (fun _ => true),
   c8_write_guard.2.2 _ [] "s" (fun _ => true) (by simp) rfl⟩

/-! ## Claim C7: deploy writes exactly the three template files -/

theorem strApp_left_cancel (a b c : String) (h : a ++ b = a ++ c) : b = c := by
  have hd : (a ++ b).data = (a ++ c).data := congrArg String.data h
  rw [String.data_append, String.data_append] at hd
  exact String.ext (List.append_cancel_left hd)

theorem pathJoin_inj_right (d a b : String) (h : pathJoin d a = pathJoin d b) :
    a = b := by
  unfold pathJoin at h
  split at h
  · exact h
  · exact strApp_left_cancel (d ++ "/") a b h

theorem in_out_ne (d : Discipline) : in_file d ≠ out_file d := by
  intro h
  have h2 := pathJoin_inj_right d.dpath _ _ h
  have h3 := strApp_left_cancel d.dclass _ _ h2
  exact absurd h3 (by decide)

theorem in_partials_ne (d : Discipline) : in_file d ≠ partials_file d := by
  intro h
  have h2 := pathJoin_inj_right d.dpath _ _ h
  have h3 := strApp_left_cancel d.dclass _ _ h2
  exact absurd h3 (by decide)

theorem out_partials_ne (d : Discipline) : out_file d ≠ partials_file d := by
  intro h
  have h2 := pathJoin_inj_right d.dpath _ _ h
  have h3 := strApp_left_cancel d.dclass _ _ h2
  exact absurd h3 (by decide)

/-- Claim C7: deploy writes the discipline template files
<dir>/<Name>-input.xml, <dir>/<Name>-output.xml and
<dir>/<Name>-partials.xml with the contents of the three generate
methods, and leaves every other file untouched. -/
theorem c7_deploy (d : Discipline) (fs : String → Option String) :
    applyWrites (deploy d) fs (in_file d) = some d.generate_input_xml
    ∧ applyWrites (deploy d) fs (out_file d) = some d.generate_output_xml
    ∧ applyWrites (deploy d) fs (partials_file d) = some d.generate_partials_xml
    ∧ ∀ p, p ≠ in_file d → p ≠ out_file d → p ≠ partials_file d →
        applyWrites (deploy d) fs p = fs p := by
  unfold applyWrites deploy
  simp only [List.foldl_cons, List.foldl_nil]
  refine ⟨?_, ?_, ?_, ?_⟩
  · rw [if_neg (in_partials_ne d), if_neg (in_out_ne d)]
    simp
  · rw [if_neg (out_partials_ne d)]
    simp
  · simp
  · intro p h1 h2 h3
    rw [if_neg h3, if_neg h2, if_neg h1]

/-- Witness for c7_deploy at a concrete discipline and an unrelated
path. -/
theorem c7_deploy_w :
    applyWrites (deploy ⟨"Perf", "kb", "IN", "OUT", "PART"⟩) (fun _ => none)
        (in_file ⟨"Perf", "kb", "IN", "OUT", "PART"⟩) = some "IN"
    ∧ applyWrites (deploy ⟨"Perf", "kb", "IN", "OUT", "PART"⟩) (fun _ => none)
        "kb/other.xml" = none :=
  ⟨(c7_deploy ⟨"Perf", "kb", "IN", "OUT", "PART"⟩ (fun _ => none)).1,
   (c7_deploy ⟨"Perf", "kb", "IN", "OUT", "PART"⟩ (fun _ => none)).2.2.2
     "kb/other.xml" (by decide) (by decide) (by decide)⟩

/-! ## Claim C10: the aliases guard of xml_params_as_indep_vars -/

/-- Claim C10 names a code bug: with aliases omitted (None) and matching
params and values, line 431 of xml_component.py evaluates
len(params) != len(aliases) on None and raises TypeError, so the
documented behaviour (deriving the INDEP_ alias from the last path
segment on line 440) is unreachable.  This theorem evaluates the
embedded function at the failing input. -/
theorem c10_alias_bug :
    xml_params_as_indep_vars
        ⟨[("a:x", XVal.flt (some 1))], [], [], "", false, none, "D"⟩
        ["a:x"] [1] none = Except.error PyErr.typeError
    ∧ lastSegAlias "a:x" = "INDEP_x" := by
  constructor
  · rfl
  · rfl

/-! ## Shape lemmas for the compute traces -/

theorem eq_nil_of_isEmpty {α : Type} (l : List α) (h : l.isEmpty = true) :
    l = [] := by
  cases l with
  | nil => rfl
  | cons a l => exact absurd h (by simp)

theorem compute_ok_shape (c : XMLComponent) (i : List String)
    (d : Option (List String)) (salt : String) (rm : String → Bool)
    (t : List Ev) (h : compute c i d salt rm = Except.ok t) :
    ∃ evs, computePre c i d (inFileName c salt) = Except.ok evs ∧
      t = evs ++ execPart c (inFileName c salt) (outFileName c salt)
        ++ removePart c (inFileName c salt) rm
        ++ readPart c (outFileName c salt) rm := by
  unfold compute at h
  cases hpre : computePre c i d (inFileName c salt) with
  | error e =>
    rw [hpre, exceptMap_err] at h
    exact absurd h (by simp)
  | ok evs =>
    rw [hpre, exceptMap_ok] at h
    exact ⟨evs, rfl, (Except.ok.inj h).symm⟩

theorem computePre_ok_shape (c : XMLComponent) (i : List String)
    (d : Option (List String)) (f : String) (evs : List Ev)
    (h : computePre c i d f = Except.ok evs) :
    (c.inputs_from_xml.isEmpty = true ∧ evs = []) ∨
    (c.inputs_from_xml.isEmpty = false ∧
      evs = Ev.writeInputFile f :: mergePart c f) := by
  unfold computePre at h
  split at h
  · next he => exact Or.inl ⟨he, (Except.ok.inj h).symm⟩
  · next he =>
    cases hw : write_input_file c i d with
    | error e =>
      rw [hw, exceptMap_err] at h
      exact absurd h (by simp)
    | ok r =>
      rw [hw, exceptMap_ok] at h
      refine Or.inr ⟨?_, (Except.ok.inj h).symm⟩
      cases hb : c.inputs_from_xml.isEmpty
      · rfl
      · exact absurd hb he

theorem checkParamsW_all_ok (ps i : List String) (dsc : Option (List String))
    (h : ∀ p ∈ ps, p ∈ i) : checkParamsW ps i dsc = Except.ok () := by
  induction ps with
  | nil => rfl
  | cons p ps ih =>
    simp only [checkParamsW]
    rw [if_pos (h p (List.mem_cons_self p ps))]
    exact ih (fun q hq => h q (List.mem_cons_of_mem p hq))

theorem write_input_file_ok (c : XMLComponent) (i : List String)
    (dsc : Option (List String)) (hin : c.inputs_from_xml ≠ [])
    (hall : ∀ p ∈ c.inputs_from_xml.map Prod.fst, p ∈ i) :
    ∃ r, write_input_file c i dsc = Except.ok r := by
  unfold write_input_file
  cases hl : c.inputs_from_xml with
  | nil => exact absurd hl hin
  | cons fst rest =>
    rw [hl] at hall
    simp only [checkParamsW_all_ok _ i dsc hall, exceptMap_ok]
    exact ⟨_, rfl⟩

theorem compute_partials_ok_shape (c : XMLComponent) (i : List String)
    (salt : String) (rm : String → Bool) (t : List Ev)
    (h : compute_partials c i salt rm = Except.ok t) :
    (c.partials_from_xml.isEmpty = true ∧ t = []) ∨
    (c.partials_from_xml.isEmpty = false ∧
      t = [Ev.writeInputFile (inFileName c salt),
           Ev.callLinearize (inFileName c salt) (pFileName c salt)]
        ++ removePart c (inFileName c salt) rm
        ++ [Ev.readPartialsFile (pFileName c salt)]
        ++ removePart c (pFileName c salt) rm) := by
  unfold compute_partials at h
  split at h
  · next he => exact Or.inl ⟨he, (Except.ok.inj h).symm⟩
  · next he =>
    cases hw : write_input_file c i none with
    | error e =>
      rw [hw, exceptMap_err] at h
      exact absurd h (by simp)
    | ok r =>
      rw [hw, exceptMap_ok] at h
      refine Or.inr ⟨?_, (Except.ok.inj h).symm⟩
      cases hb : c.partials_from_xml.isEmpty
      · rfl
      · exact absurd hb he

/-! ## Claim C2: the order of the straight-line sequence -/

/-- A concrete component with one XML input, one XML output and one
declared partial. -/
def exComp : XMLComponent :=
  ⟨[("a:x", XVal.flt (some 1))], [("a:y", XVal.flt (some 2))],
   [("/a/b", [("/a/x", 1)])], "", false, none, "D"⟩

/-- True for events that read a result file back. -/
def isReadEv : Ev → Bool
  | Ev.readOutputsFile _ => true
  | Ev.readPartialsFile _ => true
  | _ => false

/-- True when every file-reading event of the trace comes before every
deletion attempt, as the claimed order (write, call, read, delete)
requires. -/
def readsBeforeRemoves : List Ev → Bool
  | [] => true
  | Ev.tryRemove _ _ :: rest => !(rest.any isReadEv) && readsBeforeRemoves rest
  | _ :: rest => readsBeforeRemoves rest

/-- Counterexample to claim C2 as stated: on a component with an XML
input, an XML output and a declared partial, both compute and
compute_partials delete the temporary input file before reading the
result file back, so the claimed order (write, call, read, then delete
the temporary files) does not hold of the generated traces. -/
theorem c2_order_cex :
    (compute exComp ["a:x"] (some []) "s" (fun _ => true)).map readsBeforeRemoves
      = Except.ok false
    ∧ (compute_partials exComp ["a:x"] "s" (fun _ => true)).map readsBeforeRemoves
      = Except.ok false :=
  ⟨rfl, rfl⟩

/-- Claim C2 as amended: for a component with XML inputs, XML outputs
and declared partials, no base file and keep_files off, compute performs
exactly: write the temporary input file, call execute, delete the
temporary input file, read the output file, delete the temporary output
file; compute_partials does the same with linearize and the partials
file. -/
theorem c2_order_amended (c : XMLComponent) (i : List String)
    (d : Option (List String)) (salt : String) (rm : String → Bool)
    (hin : c.inputs_from_xml ≠ []) (hout : c.outputs_from_xml ≠ [])
    (hpar : c.partials_from_xml ≠ [])
    (hkeep : c.keep_files = false) (hbase : c.base_file = none)
    (hall : ∀ p ∈ c.inputs_from_xml.map Prod.fst, p ∈ i) :
    compute c i d salt rm = Except.ok
      [Ev.writeInputFile (inFileName c salt),
       Ev.callExecute (inFileName c salt) (outFileName c salt),
       Ev.tryRemove (inFileName c salt) (rm (inFileName c salt)),
       Ev.readOutputsFile (outFileName c salt),
       Ev.tryRemove (outFileName c salt) (rm (outFileName c salt))]
    ∧ compute_partials c i salt rm = Except.ok
      [Ev.writeInputFile (inFileName c salt),
       Ev.callLinearize (inFileName c salt) (pFileName c salt),
       Ev.tryRemove (inFileName c salt) (rm (inFileName c salt)),
       Ev.readPartialsFile (pFileName c salt),
       Ev.tryRemove (pFileName c salt) (rm (pFileName c salt))] := by
  obtain ⟨r, hw⟩ := write_input_file_ok c i d hin hall
  obtain ⟨r2, hw2⟩ := write_input_file_ok c i none hin hall
  constructor
  · simp [compute, computePre, isEmpty_false_of_ne _ hin,
      isEmpty_false_of_ne _ hout, hw, hbase, hkeep, execPart, mergePart,
      removePart, readPart, exceptMap_ok]
  · simp [compute_partials, isEmpty_false_of_ne _ hpar, hw2, hkeep,
      removePart, exceptMap_ok]

/-- Witness for c2_order_amended at a concrete component. -/
theorem c2_order_amended_w :
    compute exComp ["a:x"] (some []) "s" (fun _ => true) = Except.ok
      [Ev.writeInputFile (inFileName exComp "s"),
       Ev.callExecute (inFileName exComp "s") (outFileName exComp "s"),
       Ev.tryRemove (inFileName exComp "s") true,
       Ev.readOutputsFile (outFileName exComp "s"),
       Ev.tryRemove (outFileName exComp "s") true]
    ∧ compute_partials exComp ["a:x"] "s" (fun _ => true) = Except.ok
      [Ev.writeInputFile (inFileName exComp "s"),
       Ev.callLinearize (inFileName exComp "s") (pFileName exComp "s"),
       Ev.tryRemove (inFileName exComp "s") true,
       Ev.readPartialsFile (pFileName exComp "s"),
       Ev.tryRemove (pFileName exComp "s") true] :=
  c2_order_amended exComp ["a:x"] (some []) "s" (fun _ => true)
    (by decide) (by decide) (by decide) rfl rfl (by decide)

/-! ## Claim C4: best-effort cleanup -/

/-- Erase the outcome of deletion attempts from an event. -/
def scrubEv : Ev → Ev
  | Ev.tryRemove f _ => Ev.tryRemove f true
  | e => e

theorem scrub_remove (c : XMLComponent) (f : String) (rm : String → Bool) :
    (removePart c f rm).map scrubEv = removePart c f (fun _ => true) := by
  unfold removePart
  split
  · rfl
  · rfl

theorem scrub_read (c : XMLComponent) (outF : String) (rm : String → Bool) :
    (readPart c outF rm).map scrubEv = readPart c outF (fun _ => true) := by
  unfold readPart
  split
  · rfl
  · simp only [List.map_cons]
    rw [scrub_remove]
    rfl

/-- Claim C4: deletion of the temporary files is attempted whenever
keep_files is off, and a failing deletion is swallowed: the result of
compute and compute_partials, up to the recorded deletion outcomes, does
not depend on whether the deletions succeed. -/
theorem c4_cleanup (c : XMLComponent) (i : List String)
    (d : Option (List String)) (salt : String) (rm1 rm2 : String → Bool) :
    ((compute c i d salt rm1).map (List.map scrubEv) =
      (compute c i d salt rm2).map (List.map scrubEv))
    ∧ ((compute_partials c i salt rm1).map (List.map scrubEv) =
      (compute_partials c i salt rm2).map (List.map scrubEv))
    ∧ (∀ t, compute c i d salt rm1 = Except.ok t → c.keep_files = false →
        Ev.tryRemove (inFileName c salt) (rm1 (inFileName c salt)) ∈ t
        ∧ (c.outputs_from_xml ≠ [] →
            Ev.tryRemove (outFileName c salt) (rm1 (outFileName c salt)) ∈ t))
    ∧ (∀ t, compute_partials c i salt rm1 = Except.ok t →
        c.keep_files = false → c.partials_from_xml ≠ [] →
        Ev.tryRemove (inFileName c salt) (rm1 (inFileName c salt)) ∈ t
        ∧ Ev.tryRemove (pFileName c salt) (rm1 (pFileName c salt)) ∈ t) := by
  refine ⟨?_, ?_, ?_, ?_⟩
  · unfold compute
    cases hpre : computePre c i d (inFileName c salt) with
    | error e => rfl
    | ok evs =>
      simp only [exceptMap_ok]
      rw [List.map_append, List.map_append, List.map_append,
        List.map_append, List.map_append, List.map_append,
        scrub_remove, scrub_read, scrub_remove, scrub_read]
  · unfold compute_partials
    split
    · rfl
    · cases hw : write_input_file c i none with
      | error e => rfl
      | ok r =>
        simp only [exceptMap_ok]
        rw [List.map_append, List.map_append, List.map_append,
          List.map_append, List.map_append, List.map_append,
          scrub_remove, scrub_remove, scrub_remove, scrub_remove]
  · intro t ht hkeep
    obtain ⟨evs, hpre, rfl⟩ := compute_ok_shape c i d salt rm1 t ht
    constructor
    · simp [List.mem_append, removePart, hkeep]
    · intro hout
      simp [List.mem_append, readPart, removePart, hkeep,
        isEmpty_false_of_ne _ hout]
  · intro t ht hkeep hpar
    rcases compute_partials_ok_shape c i salt rm1 t ht with ⟨hie, rfl⟩ | ⟨hie, rfl⟩
    · exact absurd (eq_nil_of_isEmpty _ hie) hpar
    · constructor
      · simp [List.mem_append, removePart, hkeep]
      · simp [List.mem_append, removePart, hkeep]

/-- Witness for c4_cleanup: the removal attempts appear in a concrete
trace regardless of the removal outcome. -/
theorem c4_cleanup_w :
    ((compute exComp ["a:x"] (some []) "s" (fun _ => false)).map (List.map scrubEv) =
      (compute exComp ["a:x"] (some []) "s" (fun _ => true)).map (List.map scrubEv))
    ∧ (Ev.tryRemove (inFileName exComp "s") false ∈
        [Ev.writeInputFile (inFileName exComp "s"),
         Ev.callExecute (inFileName exComp "s") (outFileName exComp "s"),
         Ev.tryRemove (inFileName exComp "s") false,
         Ev.readOutputsFile (outFileName exComp "s"),
         Ev.tryRemove (outFileName exComp "s") false]) :=
  ⟨(c4_cleanup exComp ["a:x"] (some []) "s" (fun _ => false) (fun _ => true)).1,
   ((c4_cleanup exComp ["a:x"] (some []) "s" (fun _ => false) (fun _ => true)).2.2.1
      _ rfl rfl).1⟩

/-! ## Claim C5: execute is called exactly once -/

/-- True for the execute call events. -/
def isExecEv : Ev → Bool
  | Ev.callExecute _ _ => true
  | _ => false

/-- The execute calls of a trace. -/
def executeCalls (t : List Ev) : List Ev := t.filter isExecEv

/-- True for events that write the given file. -/
def writesTo (f : String) : Ev → Bool
  | Ev.writeInputFile g => g == f
  | Ev.mergeFiles g _ => g == f
  | _ => false

theorem executeCalls_append (a b : List Ev) :
    executeCalls (a ++ b) = executeCalls a ++ executeCalls b := by
  simp [executeCalls, List.filter_append]

theorem executeCalls_removePart (c : XMLComponent) (f : String)
    (rm : String → Bool) : executeCalls (removePart c f rm) = [] := by
  unfold removePart
  split
  · rfl
  · rfl

theorem executeCalls_readPart (c : XMLComponent) (outF : String)
    (rm : String → Bool) : executeCalls (readPart c outF rm) = [] := by
  unfold readPart
  split
  · rfl
  · show executeCalls (Ev.readOutputsFile outF :: removePart c outF rm) = []
    unfold executeCalls at *
    rw [List.filter_cons]
    simp only [isExecEv, if_false, Bool.false_eq_true]
    have h2 := executeCalls_removePart c outF rm
    unfold executeCalls at h2
    simp [h2]

theorem executeCalls_mergePart (c : XMLComponent) (f : String) :
    executeCalls (mergePart c f) = [] := by
  unfold mergePart
  split
  · rfl
  · rfl

theorem executeCalls_execPart (c : XMLComponent) (inF outF : String) :
    executeCalls (execPart c inF outF) =
      [Ev.callExecute (c.base_file.getD inF) outF] := by
  unfold execPart
  cases hb : c.base_file with
  | some b => simp [executeCalls, List.filter, isExecEv]
  | none => simp [executeCalls, List.filter, isExecEv]

/-- Claim C5: every successful compute run calls execute exactly once,
with the base file (when configured) or the fresh temporary input file
as in_file and the temporary output path as out_file; when there are XML
inputs that in_file was written by the adapter before the call, and when
there are XML outputs the out_file is read back after the call. -/
theorem c5_execute_once (c : XMLComponent) (i : List String)
    (d : Option (List String)) (salt : String) (rm : String → Bool)
    (t : List Ev) (h : compute c i d salt rm = Except.ok t) :
    executeCalls t =
      [Ev.callExecute (c.base_file.getD (inFileName c salt)) (outFileName c salt)]
    ∧ (c.inputs_from_xml ≠ [] →
        ∃ pre post,
          t = pre ++ Ev.callExecute (c.base_file.getD (inFileName c salt))
                (outFileName c salt) :: post
          ∧ executeCalls pre = [] ∧ executeCalls post = []
          ∧ pre.any (writesTo (c.base_file.getD (inFileName c salt))) = true
          ∧ (c.outputs_from_xml ≠ [] →
              Ev.readOutputsFile (outFileName c salt) ∈ post)) := by
  obtain ⟨evs, hpre, rfl⟩ := compute_ok_shape c i d salt rm t h
  have hevs : executeCalls evs = [] := by
    rcases computePre_ok_shape c i d _ evs hpre with ⟨hie, rfl⟩ | ⟨hie, rfl⟩
    · rfl
    · unfold executeCalls
      rw [List.filter_cons]
      simp only [isExecEv, if_false, Bool.false_eq_true]
      have h2 := executeCalls_mergePart c (inFileName c salt)
      unfold executeCalls at h2
      simp [h2]
  constructor
  · rw [executeCalls_append, executeCalls_append, executeCalls_append,
      executeCalls_execPart, executeCalls_removePart, executeCalls_readPart,
      hevs]
    simp
  · intro hin
    rcases computePre_ok_shape c i d _ evs hpre with ⟨hie, rfl⟩ | ⟨hie, hevs2⟩
    · exact absurd (eq_nil_of_isEmpty _ hie) hin
    · subst hevs2
      cases hb : c.base_file with
      | none =>
        refine ⟨Ev.writeInputFile (inFileName c salt) :: mergePart c (inFileName c salt),
          removePart c (inFileName c salt) rm ++ readPart c (outFileName c salt) rm,
          ?_, hevs, ?_, ?_, ?_⟩
        · simp [execPart, hb, List.append_assoc]
        · rw [executeCalls_append, executeCalls_removePart, executeCalls_readPart]
          rfl
        · simp [List.any_cons, writesTo, hb]
        · intro hout
          simp [readPart, isEmpty_false_of_ne _ hout, List.mem_append]
      | some b =>
        refine ⟨Ev.writeInputFile (inFileName c salt) :: mergePart c (inFileName c salt),
          Ev.mergeFiles b (outFileName c salt) ::
            (removePart c (inFileName c salt) rm ++ readPart c (outFileName c salt) rm),
          ?_, hevs, ?_, ?_, ?_⟩
        · simp [execPart, hb, List.append_assoc]
        · show executeCalls (Ev.mergeFiles b (outFileName c salt) ::
            (removePart c (inFileName c salt) rm ++ readPart c (outFileName c salt) rm)) = []
          have h3 := executeCalls_removePart c (inFileName c salt) rm
          have h4 := executeCalls_readPart c (outFileName c salt) rm
          unfold executeCalls at h3 h4 ⊢
          rw [List.filter_cons, List.filter_append, h3, h4]
          rfl
        · simp [List.any_cons, writesTo, hb, mergePart]
        · intro hout
          simp [readPart, isEmpty_false_of_ne _ hout, List.mem_append]

/-- The trace of a concrete successful compute run. -/
def exTraceC5 : List Ev :=
  [Ev.writeInputFile (inFileName exComp "s"),
   Ev.callExecute (inFileName exComp "s") (outFileName exComp "s"),
   Ev.tryRemove (inFileName exComp "s") true,
   Ev.readOutputsFile (outFileName exComp "s"),
   Ev.tryRemove (outFileName exComp "s") true]

/-- Witness for c5_execute_once on a concrete run. -/
theorem c5_execute_once_w :
    executeCalls exTraceC5 =
      [Ev.callExecute (inFileName exComp "s") (outFileName exComp "s")]
    ∧ ∃ pre post,
        exTraceC5 = pre ++ Ev.callExecute (inFileName exComp "s")
          (outFileName exComp "s") :: post
        ∧ executeCalls pre = [] ∧ executeCalls post = []
        ∧ pre.any (writesTo (inFileName exComp "s")) = true
        ∧ (exComp.outputs_from_xml ≠ [] →
            Ev.readOutputsFile (outFileName exComp "s") ∈ post) :=
  ⟨(c5_execute_once exComp ["a:x"] (some []) "s" (fun _ => true) exTraceC5 rfl).1,
   (c5_execute_once exComp ["a:x"] (some []) "s" (fun _ => true) exTraceC5 rfl).2
     (by decide)⟩

/-! ## Claim C6: reading the partials file -/

theorem xtpChars_id (l : List Char)
    (h : ∀ c ∈ l, c ≠ '/' ∧ c ≠ '[' ∧ c ≠ ']') : xpathToParamChars l = l := by
  cases l with
  | nil => rfl
  | cons c cs =>
    have hc := h c (List.mem_cons_self c cs)
    unfold xpathToParamChars
    rw [show stripLead (c :: cs) = if c = '/' then cs else c :: cs from rfl,
      if_neg hc.1]
    exact convChars_keep _ h

theorem paramToks_plain (xs : List XSeg)
    (h : ∀ s ∈ xs, validSeg s = true) :
    ∀ t ∈ paramToks xs, ∀ c ∈ t, isPlainChar c = true := by
  induction xs with
  | nil => intro t ht; exact absurd ht (by simp [paramToks])
  | cons s ss ih =>
    intro t ht c hc
    have hs : validSeg s = true := h s (List.mem_cons_self s ss)
    simp only [paramToks, List.mem_append] at ht
    cases ht with
    | inl hts =>
      simp only [validSeg, Bool.and_eq_true, List.all_eq_true] at hs
      cases hidx : s.idx with
      | none =>
        rw [tokSeg, hidx] at hts
        simp only [List.mem_cons, List.not_mem_nil, or_false] at hts
        subst hts
        exact hs.1.1.2 c hc
      | some d =>
        rw [tokSeg, hidx] at hts
        simp only [List.mem_cons, List.not_mem_nil, or_false] at hts
        cases hts with
        | inl hn =>
          subst hn
          exact hs.1.1.2 c hc
        | inr hd =>
          have hdig : d.all Char.isDigit = true := by
            have hsi := hs.2
            rw [hidx] at hsi
            simp only [Bool.and_eq_true] at hsi
            exact hsi.2
          simp only [List.all_eq_true] at hdig
          rw [hd] at hc
          exact isDigit_plain c (hdig c hc)
    | inr hr =>
      exact ih (fun x hx => h x (List.mem_cons_of_mem s hx)) t hr c hc

theorem preJoin_chars (ts : List (List Char))
    (h : ∀ t ∈ ts, ∀ c ∈ t, isPlainChar c = true) :
    ∀ c ∈ preJoin ts, c ≠ '/' ∧ c ≠ '[' ∧ c ≠ ']' := by
  induction ts with
  | nil => intro c hc; exact absurd hc (by simp [preJoin])
  | cons t ts ih =>
    intro c hc
    simp only [preJoin, List.mem_cons, List.mem_append] at hc
    rcases hc with rfl | hc | hc
    · exact ⟨by decide, by decide, by decide⟩
    · obtain ⟨h1, h2, h3, -⟩ :=
        isPlainChar_spec c (h t (List.mem_cons_self t ts) c hc)
      exact ⟨h1, h2, h3⟩
    · exact ih (fun u hu => h u (List.mem_cons_of_mem t hu)) c hc

theorem joinColon_chars (ts : List (List Char))
    (h : ∀ t ∈ ts, ∀ c ∈ t, isPlainChar c = true) :
    ∀ c ∈ joinColon ts, c ≠ '/' ∧ c ≠ '[' ∧ c ≠ ']' := by
  cases ts with
  | nil => intro c hc; exact absurd hc (by simp [joinColon])
  | cons t ts =>
    intro c hc
    simp only [joinColon, List.mem_append] at hc
    cases hc with
    | inl hc =>
      obtain ⟨h1, h2, h3, -⟩ :=
        isPlainChar_spec c (h t (List.mem_cons_self t ts) c hc)
      exact ⟨h1, h2, h3⟩
    | inr hc =>
      exact preJoin_chars ts (fun u hu => h u (List.mem_cons_of_mem t hu)) c hc

/-- Applying the path-to-parameter conversion to an already-converted
name of a well-formed XML path is the identity. -/
theorem xtp_idem (xs : List XSeg) (h : validXPath xs = true) :
    xpath_to_param (xpath_to_param (String.mk (renderXPath xs))) =
      xpath_to_param (String.mk (renderXPath xs)) := by
  obtain ⟨s, ss, rfl⟩ : ∃ s ss, xs = s :: ss := by
    cases xs with
    | nil => exact absurd h (by simp [validXPath])
    | cons s ss => exact ⟨s, ss, rfl⟩
  have hall : ∀ x ∈ s :: ss, validSeg x = true := by
    simp only [validXPath, Bool.and_eq_true, List.all_eq_true] at h
    exact h.2
  show String.mk (xpathToParamChars (xpathToParamChars (renderXPath (s :: ss)))) =
    String.mk (xpathToParamChars (renderXPath (s :: ss)))
  rw [xtpChars_render s ss hall]
  rw [xtpChars_id _ (joinColon_chars _ (paramToks_plain _ hall))]

theorem inner_fold_eq (wrts : List (String × ℚ)) (ofCur ofTgt : String)
    (vec : PairMap) (tr : List String)
    (hy : xpath_to_param ofCur = ofTgt)
    (hidem : xpath_to_param ofTgt = ofTgt) :
    (wrts.foldl readPartialsStep (ofCur, vec, tr)).2.1 =
      wrts.foldl
        (fun m wv => pmUpdate m (ofTgt, xpath_to_param wv.1) wv.2) vec := by
  induction wrts generalizing ofCur vec tr with
  | nil => rfl
  | cons wv rest ih =>
    simp only [List.foldl_cons, readPartialsStep]
    rw [hy]
    exact ih ofTgt _ _ hidem

theorem outer_fold_eq (entries : List (String × List (String × ℚ)))
    (h : ∀ e ∈ entries, xpath_to_param (xpath_to_param e.1) = xpath_to_param e.1) :
    ∀ (vec : PairMap) (tr1 tr2 : List String),
      (entries.foldl readPartialsOuter (vec, tr1)).1 =
      (entries.foldl claimedOuter (vec, tr2)).1 := by
  induction entries with
  | nil => intro vec tr1 tr2; rfl
  | cons e rest ih =>
    intro vec tr1 tr2
    simp only [List.foldl_cons]
    have hstep := inner_fold_eq e.2 e.1 (xpath_to_param e.1) vec tr1 rfl
      (h e (List.mem_cons_self e rest))
    have h1 : readPartialsOuter (vec, tr1) e =
        ((claimedOuter (vec, tr2) e).1,
         (e.2.foldl readPartialsStep (e.1, vec, tr1)).2.2) := by
      unfold readPartialsOuter claimedOuter
      exact Prod.ext hstep rfl
    rw [h1]
    exact ih (fun x hx => h x (List.mem_cons_of_mem e hx)) _ _ _

theorem pmUpdate_keys (m : PairMap) (k : String × String) (v : ℚ) :
    (pmUpdate m k v).map Prod.fst = m.map Prod.fst := by
  unfold pmUpdate
  induction m with
  | nil => rfl
  | cons e es ih =>
    simp only [List.map_cons, ih]
    by_cases h : e.1 = k
    · simp [h]
    · simp [h]

theorem inner_fold_keys (wrts : List (String × ℚ)) (ofCur : String)
    (vec : PairMap) (tr : List String) :
    ((wrts.foldl readPartialsStep (ofCur, vec, tr)).2.1).map Prod.fst =
      vec.map Prod.fst := by
  induction wrts generalizing ofCur vec tr with
  | nil => rfl
  | cons wv rest ih =>
    simp only [List.foldl_cons, readPartialsStep]
    exact (ih _ _ _).trans (pmUpdate_keys _ _ _)

theorem outer_fold_keys (entries : List (String × List (String × ℚ))) :
    ∀ (vec : PairMap) (tr : List String),
      ((entries.foldl readPartialsOuter (vec, tr)).1).map Prod.fst =
        vec.map Prod.fst := by
  induction entries with
  | nil => intro vec tr; rfl
  | cons e rest ih =>
    intro vec tr
    simp only [List.foldl_cons]
    exact (ih _ _).trans (inner_fold_keys _ _ _ _)

theorem pmGet_none (m : PairMap) (k : String × String)
    (h : k ∉ m.map Prod.fst) : pmGet m k = none := by
  induction m with
  | nil => rfl
  | cons e es ih =>
    simp only [List.map_cons, List.mem_cons, not_or] at h
    unfold pmGet at ih ⊢
    rw [List.find?_cons_of_neg _ (by
      simp only [decide_eq_true_eq]
      exact fun hh => h.1 hh.symm)]
    exact ih h.2

/-- The partials file and Jacobian of the counterexample: one of-entry
with two wrt-entries, both pairs declared. -/
def c6entries : List (String × List (String × ℚ)) :=
  [("/a/b", [("/a/x", 1), ("/a/y", 2)])]

/-- The declared Jacobian of the counterexample. -/
def c6vec : PairMap :=
  [(("a:b", "a:x"), 0), (("a:b", "a:y"), 0)]

/-- Counterexample to claim C6 as stated: read_partials_file does not
convert the of path exactly once per entry.  The inner loop overwrites
the Python variable of, so for the second wrt of an entry the already
converted name is passed through xpath_to_param again: the argument
trace of the conversions differs from the one the claim prescribes. -/
theorem c6_convert_cex :
    (read_partials_file c6entries c6vec).2 ≠
      (readPartialsClaimed c6entries c6vec).2 := by
  decide

/-- Claim C6 as amended: for every of-entry the raw of path is converted
once and, for each later wrt of the same entry, the already-converted
name is converted again; because converting an already-converted name of
a well-formed path is the identity, every value is still stored at the
once-converted (of, wrt) pair when that pair is declared, and pairs not
declared in the Jacobian are never created. -/
theorem c6_convert_amended (entries : List (String × List (String × ℚ)))
    (vec : PairMap)
    (h : ∀ e ∈ entries, ∃ xs, validXPath xs = true ∧
        e.1 = String.mk (renderXPath xs)) :
    (read_partials_file entries vec).1 = (readPartialsClaimed entries vec).1
    ∧ ∀ k, k ∉ vec.map Prod.fst →
        pmGet (read_partials_file entries vec).1 k = none := by
  constructor
  · unfold read_partials_file readPartialsClaimed
    refine outer_fold_eq entries ?_ vec [] []
    intro e he
    obtain ⟨xs, hv, heq⟩ := h e he
    rw [heq]
    exact xtp_idem xs hv
  · intro k hk
    apply pmGet_none
    unfold read_partials_file
    rw [outer_fold_keys]
    exact hk

/-- Witness for c6_convert_amended on the concrete partials file. -/
theorem c6_convert_amended_w :
    (read_partials_file c6entries c6vec).1 =
      (readPartialsClaimed c6entries c6vec).1
    ∧ pmGet (read_partials_file c6entries c6vec).1 ("zz", "zz") = none :=
  ⟨(c6_convert_amended c6entries c6vec (by
      intro e he
      simp only [c6entries, List.mem_cons, List.not_mem_nil, or_false] at he
      subst he
      exact ⟨[⟨['a'], none⟩, ⟨['b'], none⟩], by decide, by decide⟩)).1,
   (c6_convert_amended c6entries c6vec (by
      intro e he
      simp only [c6entries, List.mem_cons, List.not_mem_nil, or_false] at he
      subst he
      exact ⟨[⟨['a'], none⟩, ⟨['b'], none⟩], by decide, by decide⟩)).2
     ("zz", "zz") (by decide)⟩
